/-
Formal model of the IFS125HR preview tool (125HR_preview.py): the stripped-down
OPUS-format reader class `ftsreader` and the interferogram smoothing routine
`smooth_ifg`, together with theorems settling the frozen claims about them.

Modelling conventions, used throughout:
* A byte stream (file on disk, bounded prefix of a file, or in-memory buffer) is
  a `List ℕ` whose entries are byte values below 256.  `f.seek(p); f.read(k)`
  returns the available bytes and may be short, exactly as in Python; the
  callers fail on short reads when `struct.unpack` checks the buffer size.
* Python floats are modelled as exact rationals (`ℚ`); IEEE-754 special values
  that cannot live in `ℚ` get their own constructors in `PyFloat`.
* Real-valued numerics produced from `np.cos` / FFT live in `ℝ` and `ℂ`.
* Exceptions are modelled with `Except PyErr`; an exception caught by a
  `try/except` in the source shows up as a handled `.error` branch.
* The mutable `self.log` list is a diagnostic side effect with no bearing on
  any claim and is omitted from the state.
-/
import Mathlib

namespace Ifs125

/-- Error values standing for the Python exceptions the modelled code can raise
(`struct.error`, `ValueError` from a negative seek, `TypeError` from
subscripting `None`, `KeyError`, `ZeroDivisionError`, an unbound local,
numpy broadcast `ValueError`, the numpy FFT rejection of empty input, and a
recursion-fuel marker that is unreachable for the inputs considered).
`blockNotFound` is the recoverable error the specification postulates for a
missing data block; the source never produces it, which is what claim C3 is
about. -/
inductive PyErr where
  | structError
  | negSeek
  | typeErrorNone
  | keyError
  | zeroDiv
  | unboundLocal
  | valueError
  | broadcast
  | fftInvalid
  | blockNotFound
  | fuelExhausted
  deriving DecidableEq

/-- Boolean test that an `Except` computation ended in an error. -/
def isError {ε α : Type _} : Except ε α → Bool
  | .error _ => true
  | .ok _ => false

/-- Python `int()` applied to an exact rational: truncation toward zero. -/
def pyInt (q : ℚ) : ℤ :=
  if 0 ≤ q then ⌊q⌋ else ⌈q⌉

/-- Python slice `xs[a:b]` with possibly negative bounds: each bound is
normalised by adding the length when negative and clamping into `[0, n]`. -/
def pySlice {α : Type _} (xs : List α) (a b : ℤ) : List α :=
  let n : ℤ := xs.length
  let a2 : ℤ := if a < 0 then max (n + a) 0 else min a n
  let b2 : ℤ := if b < 0 then max (n + b) 0 else min b n
  (xs.take b2.toNat).drop a2.toNat

/-- Numpy slice assignment `xs[:l] = v`.  The target slice has
`min l xs.length` cells; numpy raises a broadcast `ValueError` unless the
right-hand array has exactly that many entries. -/
def npSetFront {α : Type _} (xs : List α) (l : ℕ) (v : List α) : Except PyErr (List α) :=
  let t := min l xs.length
  if v.length = t then .ok (v ++ xs.drop t) else .error .broadcast

/-- Numpy slice assignment `xs[-l:] = v` with `l : ℕ`.  Since `-0 = 0` in
Python, the slice `xs[-0:]` is the whole array; for `0 < l` the slice start
`-l` clamps to `max (n-l) 0`, giving `min l n` target cells.  As with
`npSetFront`, a length mismatch is a broadcast `ValueError`. -/
def npSetBack {α : Type _} (xs : List α) (l : ℕ) (v : List α) : Except PyErr (List α) :=
  let n := xs.length
  let t := if l = 0 then n else min l n
  if v.length = t then .ok (xs.take (n - t) ++ v) else .error .broadcast

/-- Numpy elementwise product of two one-dimensional arrays: equal lengths
multiply pointwise, a length-1 array broadcasts against the other, and any
other shape pair raises a broadcast `ValueError`. -/
def npMul {α : Type _} [Mul α] (xs ys : List α) : Except PyErr (List α) :=
  if xs.length = ys.length then .ok (List.zipWith (· * ·) xs ys)
  else
    match xs, ys with
    | [x], ys => .ok (ys.map (fun y => x * y))
    | xs, [y] => .ok (xs.map (fun x => x * y))
    | _, _ => .error .broadcast

/-- Insertion step for the ascending sort used by the median. -/
def insertQ (x : ℚ) : List ℚ → List ℚ
  | [] => [x]
  | y :: ys => if x ≤ y then x :: y :: ys else y :: insertQ x ys

/-- Ascending sort of a rational list (the sorting algorithm is irrelevant to
`np.median`, only the sorted order is). -/
def sortQ (xs : List ℚ) : List ℚ :=
  xs.foldr insertQ []

/-- Model of `np.median`: the middle entry of the sorted data for odd length,
the mean of the two middle entries for even length.  `np.median` of an empty
array is `nan` with a warning; that case is modelled as `0` and is never
observable in the claims (the empty-crop pipeline fails later regardless). -/
def medianQ (xs : List ℚ) : ℚ :=
  let s := sortQ xs
  let n := xs.length
  if n = 0 then 0
  else if n % 2 = 1 then s.getD (n / 2) 0
  else (s.getD (n / 2 - 1) 0 + s.getD (n / 2) 0) / 2

/-- Model of `np.linspace a b n`: `n` evenly spaced points from `a` to `b`
inclusive (a single point degenerates to `[a]`). -/
def linspaceQ (a b : ℚ) (n : ℕ) : List ℚ :=
  if n = 0 then []
  else if n = 1 then [a]
  else (List.range n).map (fun (i : ℕ) => a + (b - a) * i / (n - 1))

/-- Bytes delivered by `f.seek(off); f.read(len)` on a stream whose full
contents are `data`: reads past the end are silently short, as in Python. -/
def readBytes (data : List ℕ) (off : ℕ) (len : ℕ) : List ℕ :=
  (data.drop off).take len

/-- Little-endian unsigned 16-bit integer from (the first two of) a byte list. -/
def leU16 (b : List ℕ) : ℕ :=
  b.getD 0 0 + 256 * b.getD 1 0

/-- Little-endian unsigned 32-bit integer from (the first four of) a byte list. -/
def leU32 (b : List ℕ) : ℕ :=
  b.getD 0 0 + 256 * b.getD 1 0 + 65536 * b.getD 2 0 + 16777216 * b.getD 3 0

/-- Little-endian signed 32-bit integer (struct format `i`). -/
def leI32 (b : List ℕ) : ℤ :=
  let u := leU32 b
  if u < 2147483648 then (u : ℤ) else (u : ℤ) - 4294967296

/-- Exact value of a Python float: a rational for finite values, or one of the
IEEE-754 special values, which have no rational counterpart. -/
inductive PyFloat where
  | finite (q : ℚ)
  | infty (neg : Bool)
  | nan
  deriving DecidableEq

/-- Decode four little-endian bytes as an IEEE-754 binary32 value
(struct format `f`), exactly. -/
def decodeF32LE (b : List ℕ) : PyFloat :=
  let u := leU32 b
  let sgn : ℚ := if u / 2147483648 % 2 = 1 then -1 else 1
  let ex := u / 8388608 % 256
  let frac := u % 8388608
  if ex = 255 then
    if frac = 0 then .infty (u / 2147483648 % 2 = 1) else .nan
  else if ex = 0 then .finite (sgn * frac * (2 : ℚ) ^ (-(149 : ℤ)))
  else .finite (sgn * ((8388608 + frac : ℕ) : ℚ) * (2 : ℚ) ^ ((ex : ℤ) - 150))

/-- Decode eight little-endian bytes as an IEEE-754 binary64 value
(struct format `d`), exactly. -/
def decodeF64LE (b : List ℕ) : PyFloat :=
  let u := leU32 (b.take 4) + 4294967296 * leU32 (b.drop 4)
  let sgn : ℚ := if u / 9223372036854775808 % 2 = 1 then -1 else 1
  let ex := u / 4503599627370496 % 2048
  let frac := u % 4503599627370496
  if ex = 2047 then
    if frac = 0 then .infty (u / 9223372036854775808 % 2 = 1) else .nan
  else if ex = 0 then .finite (sgn * frac * (2 : ℚ) ^ (-(1074 : ℤ)))
  else .finite (sgn * ((4503599627370496 + frac : ℕ) : ℚ) * (2 : ℚ) ^ ((ex : ℤ) - 1075))

/-- Split a byte list into consecutive 4-byte groups, dropping a ragged tail
(callers only use it on lists whose length is a multiple of 4). -/
def chunk4 : List ℕ → List (List ℕ)
  | a :: b :: c :: d :: rest => [a, b, c, d] :: chunk4 rest
  | _ => []

/-- Strict UTF-8 decoding of a byte list, as `bytes.decode()` performs it:
rejects stray continuation bytes, overlong encodings, surrogate code points and
values above U+10FFFF.  Returns `none` where Python raises
`UnicodeDecodeError`. -/
def utf8Go : List ℕ → Option (List Char)
  | [] => some []
  | b :: bs =>
    if b < 128 then (utf8Go bs).map (fun cs => Char.ofNat b :: cs)
    else if b < 194 then none
    else if b < 224 then
      match bs with
      | b2 :: bs2 =>
        if 128 ≤ b2 ∧ b2 < 192 then
          (utf8Go bs2).map (fun cs => Char.ofNat ((b - 192) * 64 + (b2 - 128)) :: cs)
        else none
      | _ => none
    else if b < 240 then
      match bs with
      | b2 :: b3 :: bs3 =>
        let lo2 := if b = 224 then 160 else 128
        let hi2 := if b = 237 then 160 else 192
        if (lo2 ≤ b2 ∧ b2 < hi2) ∧ (128 ≤ b3 ∧ b3 < 192) then
          (utf8Go bs3).map (fun cs =>
            Char.ofNat ((b - 224) * 4096 + (b2 - 128) * 64 + (b3 - 128)) :: cs)
        else none
      | _ => none
    else if b < 245 then
      match bs with
      | b2 :: b3 :: b4 :: bs4 =>
        let lo2 := if b = 240 then 144 else 128
        let hi2 := if b = 244 then 144 else 192
        if (lo2 ≤ b2 ∧ b2 < hi2) ∧ (128 ≤ b3 ∧ b3 < 192) ∧ (128 ≤ b4 ∧ b4 < 192) then
          (utf8Go bs4).map (fun cs =>
            Char.ofNat ((b - 240) * 262144 + (b2 - 128) * 4096 + (b3 - 128) * 64 + (b4 - 128)) :: cs)
        else none
      | _ => none
    else none

/-- `bytes.decode()` (UTF-8, strict) producing a `String`. -/
def utf8Decode (bs : List ℕ) : Option String :=
  (utf8Go bs).map List.asString

/-- ISO-8859-1 decoding: every byte maps to the character of the same code. -/
def latin1 (bs : List ℕ) : List Char :=
  bs.map Char.ofNat

/-! ## The `ftsreader` class -/

/-- Value of one decoded header parameter: a signed 32-bit integer (type code
0), a 64-bit float (type code 1), or text (type codes 2–4).  The placeholder
`"[read error]"` that the source stores for unknown type codes is an ordinary
`strv`. -/
inductive HVal where
  | intv (z : ℤ)
  | floatv (f : PyFloat)
  | strv (s : String)
  deriving DecidableEq

/-- One entry of `ftsreader.fs`: the dictionary the source stores per block
(`blocktype` and `blocktype2` are kept as decimal strings there). -/
structure BlockInfo where
  blocktype : String
  blocktype2 : String
  length : ℤ
  offset : ℤ
  deriving DecidableEq

/-- The block directory `ftsreader.fs`: a Python dict from resolved block name
to block metadata, modelled as an association list in insertion order. -/
abbrev Dir := List (String × BlockInfo)

/-- The header `ftsreader.header`: block name to (parameter tag to value). -/
abbrev Hdr := List (String × List (String × HVal))

/-- Python dict insertion `m[k] = v`: overwrite in place if the key exists
(keeping its original position), else append. -/
def dictInsert {β : Type _} (m : List (String × β)) (k : String) (v : β) :
    List (String × β) :=
  if m.any (fun p => p.1 = k) then
    m.map (fun p => if p.1 = k then (k, v) else p)
  else m ++ [(k, v)]

/-- The three modes of `ftsreader.getfileobject`: a file on disk, the first
17428 bytes of a file wrapped in `io.BytesIO`, or a caller-supplied buffer. -/
inductive FileMode where
  | hdd
  | bytesfromfile
  | mem
  deriving DecidableEq

/-- Bytes visible through the file object `getfileobject` returns, given the
full underlying data: `bytesfromfile` truncates to the first 17428 bytes. -/
def sourceBytes (mode : FileMode) (data : List ℕ) : List ℕ :=
  match mode with
  | .hdd => data
  | .bytesfromfile => data.take 17428
  | .mem => data

/-- The magic signature at offset 0 of a valid file: the four bytes
`0A 0A FE FE`. -/
def ftsMagic : List ℕ := [10, 10, 254, 254]

/-- The bytes of the terminating tag `END`. -/
def endBytes : List ℕ := [69, 78, 68]

/-- Primary block-name catalogue `ftsreader.__blocknames`, keyed in the source
by `str(blocktype)`; the lookup is therefore a plain match on the numeric
value. -/
def blocknameOf (bt : ℕ) : Option String :=
  match bt with
  | 160 => some "Sample Parameters"
  | 23 => some "Data Parameters"
  | 96 => some "Optic Parameters"
  | 64 => some "FT Parameters"
  | 48 => some "Acquisition Parameters"
  | 32 => some "Instrument Parameters"
  | 7 => some "Data Block"
  | 0 => some "something"
  | _ => none

/-- Secondary suffix catalogue `ftsreader.__blocknames2`.  Its two
bytes-valued keys can never equal the string `str(blocktype2)` that the
source compares against, so only the five string keys are live. -/
def blockname2Of (bt2 : ℕ) : Option String :=
  match bt2 with
  | 132 => some " ScSm"
  | 4 => some " SpSm"
  | 8 => some " IgSm"
  | 20 => some " TrSm"
  | 12 => some " PhSm"
  | _ => none

/-- Right-justified rendering of an integer with minimum width 3, as the
format the `%3i` format produces. -/
def pyFmt3 (z : ℤ) : String :=
  let s := toString z
  if s.length < 3 then String.mk (List.replicate (3 - s.length) ' ') ++ s else s

/-- `ftsreader.test_if_ftsfile`: seek to 0, read 4 bytes, compare with the
magic value (a short read compares unequal and also fails the test). -/
def test_if_ftsfile (data : List ℕ) : Bool :=
  readBytes data 0 4 = ftsMagic

/-- Loop body of `ftsreader.read_structure`.  Directory entries are 12 bytes
each, read consecutively from the first offset; a short read is a
`struct.error` that aborts the scan.  Block names resolve through the two
catalogues; unknown or sentinel (`0`) primary codes get a ` len %3i` tail
appended. -/
def structGo (data : List ℕ) : ℕ → ℕ → Dir → Except PyErr Dir
  | _, 0, fs => .ok fs
  | pos, n + 1, fs =>
    let s := readBytes data pos 12
    if s.length = 12 then
      let bt := s.getD 0 0
      let bt2 := s.getD 1 0
      let blen := leI32 (s.drop 4)
      let boff := leI32 (s.drop 8)
      let base :=
        match blocknameOf bt with
        | some nm => nm
        | none => "[unknown block " ++ toString bt ++ "]"
      let base :=
        match blockname2Of bt2 with
        | some suf => base ++ suf
        | none => base
      let name :=
        if bt = 0 ∨ blocknameOf bt = none then base ++ " len " ++ pyFmt3 blen else base
      structGo data (pos + 12) n
        (dictInsert fs name ⟨toString bt, toString bt2, blen, boff⟩)
    else .error .structError

/-- `ftsreader.read_structure`: unpack the six leading 32-bit integers
`(magic, _, _, offset1, _, numberofblocks)`, seek to `offset1` (a negative
offset raises), and walk `numberofblocks` directory entries. -/
def read_structure (data : List ℕ) : Except PyErr Dir :=
  let hdr := readBytes data 0 24
  if hdr.length = 24 then
    let offset1 := leI32 (hdr.drop 12)
    let nblocks := leI32 (hdr.drop 20)
    if offset1 < 0 then .error .negSeek
    else structGo data offset1.toNat nblocks.toNat []
  else .error .structError

/-- Decoding of one parameter payload according to its type code, i.e. the
body of the `try` block in `getparamsfromblock`.  `payload` is what
`f.read(2*length)` returned (possibly short at end of file).  `none` models an
exception caught by the `except` (record skipped); type codes other than 0–4
produce the placeholder text `"[read error]"` without any exception.
Details mirrored from the source: the `%1ii`-style count (payload length over 4, truncated) truncates, so
type 0 unpacks iff the payload length is a multiple of 4, and `[0]` raises
`IndexError` on an empty tuple; likewise for type 1 with 8; types 2–4 unpack
`2*length` bytes exactly (short payload fails), decode as ISO-8859-1 and
truncate at the first NUL. -/
def decodeVal (ty : ℕ) (wc : ℕ) (payload : List ℕ) : Option HVal :=
  if ty = 0 then
    if payload.length % 4 = 0 ∧ payload.length ≠ 0 then
      some (.intv (leI32 (payload.take 4)))
    else none
  else if ty = 1 then
    if payload.length % 8 = 0 ∧ payload.length ≠ 0 then
      some (.floatv (decodeF64LE (payload.take 8)))
    else none
  else if 2 ≤ ty ∧ ty ≤ 4 then
    if payload.length = 2 * wc then
      some (.strv (List.asString ((latin1 payload).takeWhile (fun c => c ≠ Char.ofNat 0))))
    else none
  else some (.strv "[read error]")

/-- Loop of `ftsreader.getparamsfromblock`: read an 8-byte record header
`(tag: 4s, type: H, count: H)` at `offset + i` (negative seek raises, a short
read is a fatal `struct.error`), trim a trailing NUL from the tag, stop on an
`END` tag or a zero count, otherwise read `2*count` payload bytes and decode.
A record whose value or tag fails to decode is logged and skipped; all other
records are stored under their decoded tag.  The fuel argument only bounds the
recursion; each iteration consumes at least 10 bytes of the stream, so
`data.length + 1` steps can never be exhausted. -/
def gppGo (data : List ℕ) (offset : ℤ) :
    ℕ → ℕ → List (String × HVal) → Except PyErr (List (String × HVal))
  | 0, _, _ => .error .fuelExhausted
  | fuel + 1, i, acc =>
    if offset + i < 0 then .error .negSeek
    else
      let s := readBytes data (offset + i).toNat 8
      if s.length = 8 then
        let para0 := s.take 4
        let ty := leU16 (s.drop 4)
        let wc := leU16 (s.drop 6)
        let para := if para0.getD 3 1 = 0 then para0.take 3 else para0
        if para.take 3 ≠ endBytes ∧ 0 < wc then
          let payload := readBytes data (offset + (i + 8)).toNat (2 * wc)
          let acc2 :=
            match decodeVal ty wc payload, utf8Decode para with
            | some v, some tag => dictInsert acc tag v
            | _, _ => acc
          gppGo data offset fuel (i + 8 + 2 * wc) acc2
        else .ok acc
      else .error .structError

/-- `ftsreader.getparamsfromblock` (with `full=False`).  The `length`
argument is accepted and ignored, exactly as in the source, where the block
length never bounds the loop. -/
def getparamsfromblock (data : List ℕ) (offset : ℤ) (_length : ℤ) :
    Except PyErr (List (String × HVal)) :=
  gppGo data offset (data.length + 1) 0 []

/-- Python substring test `sub in s`: some contiguous run of `s` equals
`sub`. -/
def strContains (s sub : String) : Bool :=
  s.data.tails.any (fun t => sub.data.isPrefixOf t)

/-- Body of the header assembly loop of `ftsreader.read_header`: a directory
entry whose name does not start with `Data Block` and whose length is
positive is considered, but an entry whose name contains `unknown` or
`something` is skipped, and a block whose parameter decode raises is caught,
logged and dropped. -/
def hdrStep (data : List ℕ) (h : Hdr) (p : String × BlockInfo) : Hdr :=
  if p.1.take 10 ≠ "Data Block" ∧ 0 < p.2.length then
    if (strContains p.1 "unknown" ∨ strContains p.1 "something") then h
    else
      match getparamsfromblock data p.2.offset p.2.length with
      | .ok ps => dictInsert h p.1 ps
      | .error _ => h
  else h

/-- Header assembly loop of `ftsreader.read_header` over all directory
entries. -/
def buildHeaderFromFs (data : List ℕ) (fs : Dir) : Hdr :=
  fs.foldl (hdrStep data) []

/-- `ftsreader.read_header`: scan the structure, then decode each
header-bearing block.  A `struct` failure inside `read_structure` propagates
(the per-block decode failures are caught inside the loop instead). -/
def read_header (data : List ℕ) : Except PyErr (Dir × Hdr) :=
  match read_structure data with
  | .ok fs => .ok (fs, buildHeaderFromFs data fs)
  | .error e => .error e

/-- `ftsreader.search_block`: dictionary lookup in `fs`; a missing name is
logged and falls through to an implicit `None`. -/
def search_block (fs : Dir) (blockname : String) : Option BlockInfo :=
  (fs.find? (fun p => p.1 = blockname)).map (fun p => p.2)

/-- `ftsreader.has_block`. -/
def has_block (fs : Dir) (blockname : String) : Bool :=
  fs.any (fun p => p.1 = blockname)

/-- `ftsreader.get_block`: seek to `pointer` (negative raises) and unpack
`length` 32-bit floats from `length*4` bytes.  A negative `length` makes the
struct format string invalid, and a short read fails the size check inside
`struct.unpack`; both are `struct.error`.  The successful result always holds
exactly `length` samples. -/
def get_block (data : List ℕ) (pointer : ℤ) (length : ℤ) :
    Except PyErr (List PyFloat) :=
  if length < 0 then .error .structError
  else if pointer < 0 then .error .negSeek
  else
    let bytes := readBytes data pointer.toNat (4 * length.toNat)
    if bytes.length = 4 * length.toNat then .ok ((chunk4 bytes).map decodeF32LE)
    else .error .structError

/-- Python `float(str)` on a stripped decimal literal:
optional sign, digits with an optional fractional part, optional exponent.
Anything else (including the textual specials) is a `ValueError` here; the
code only ever applies it to numeric resolution parameters. -/
def pyFloatOfString (s : String) : Except PyErr ℚ :=
  let cs := (s.data.dropWhile (fun c => c = ' ')).reverse.dropWhile (fun c => c = ' ') |>.reverse
  let (sgn, cs) :=
    match cs with
    | '-' :: rest => ((-1 : ℚ), rest)
    | '+' :: rest => ((1 : ℚ), rest)
    | _ => ((1 : ℚ), cs)
  let intPart := cs.takeWhile Char.isDigit
  let rest1 := cs.dropWhile Char.isDigit
  let (fracPart, rest2) :=
    match rest1 with
    | '.' :: r => (r.takeWhile Char.isDigit, r.dropWhile Char.isDigit)
    | _ => ([], rest1)
  let (expSgn, expDigits, rest3) :=
    match rest2 with
    | 'e' :: '-' :: r => ((-1 : ℤ), r.takeWhile Char.isDigit, r.dropWhile Char.isDigit)
    | 'e' :: '+' :: r => ((1 : ℤ), r.takeWhile Char.isDigit, r.dropWhile Char.isDigit)
    | 'e' :: r => ((1 : ℤ), r.takeWhile Char.isDigit, r.dropWhile Char.isDigit)
    | 'E' :: '-' :: r => ((-1 : ℤ), r.takeWhile Char.isDigit, r.dropWhile Char.isDigit)
    | 'E' :: '+' :: r => ((1 : ℤ), r.takeWhile Char.isDigit, r.dropWhile Char.isDigit)
    | 'E' :: r => ((1 : ℤ), r.takeWhile Char.isDigit, r.dropWhile Char.isDigit)
    | _ => ((1 : ℤ), [], rest2)
  let digitsVal : List Char → ℕ := fun ds => ds.foldl (fun a c => a * 10 + (c.toNat - 48)) 0
  if rest3 ≠ [] ∨ (intPart = [] ∧ fracPart = []) ∨ (rest2 ≠ [] ∧ expDigits = []) then
    .error .valueError
  else
    .ok (sgn * ((digitsVal intPart : ℚ) + (digitsVal fracPart : ℚ) / 10 ^ fracPart.length) *
      10 ^ (expSgn * (digitsVal expDigits : ℤ)))

/-- Python `float(v)` on a header value: integers and finite floats convert
exactly; the IEEE specials have no rational model and numeric strings go
through `pyFloatOfString`. -/
def pyFloatOfHVal (v : HVal) : Except PyErr ℚ :=
  match v with
  | .intv z => .ok (z : ℚ)
  | .floatv (.finite q) => .ok q
  | .floatv _ => .error .valueError
  | .strv s => pyFloatOfString s

/-- Numeric value `np.linspace` accepts as an endpoint: integers and finite
floats; a string endpoint (or an IEEE special, outside the rational model)
raises. -/
def npNumOfHVal (v : HVal) : Except PyErr ℚ :=
  match v with
  | .intv z => .ok (z : ℚ)
  | .floatv (.finite q) => .ok q
  | _ => .error .valueError

/-- Nested dictionary access `header[name][par]`: a missing key at either
level raises `KeyError`. -/
def hdrGet2 (header : Hdr) (name par : String) : Except PyErr HVal :=
  match (header.find? (fun p => p.1 = name)).map (fun p => p.2) with
  | none => .error .keyError
  | some ps =>
    match (ps.find? (fun p => p.1 = par)).map (fun p => p.2) with
    | none => .error .keyError
    | some v => .ok v

/-- X-axis reconstruction of `ftsreader.get_datablocks` for a block of `n`
samples: an OPD estimate `linspace 0 (2*0.9/RES) n` for interferogram blocks,
and `linspace FXV LXV n` from the block-specific data parameters for the
spectral kinds.  A block name matching none of the five cases leaves `xax`
unassigned, so the final `return xax, yax` raises `UnboundLocalError`. -/
def xaxFor (header : Hdr) (block : String) (n : ℕ) : Except PyErr (List ℚ) :=
  if block = "Data Block IgSm" ∨ block = "Data Block" then
    match hdrGet2 header "Acquisition Parameters" "RES" with
    | .error e => .error e
    | .ok v =>
      match pyFloatOfHVal v with
      | .error e => .error e
      | .ok res =>
        if res = 0 then .error .zeroDiv
        else .ok (linspaceQ 0 (2 * (9 / 10) / res) n)
  else if block = "Data Block SpSm" ∨ block = "Data Block ScSm" ∨
      block = "Data Block TrSm" ∨ block = "Data Block PhSm" then
    let dp := "Data Parameters" ++ block.drop 10
    match hdrGet2 header dp "FXV", hdrGet2 header dp "LXV" with
    | .ok fxv, .ok lxv =>
      (match npNumOfHVal fxv, npNumOfHVal lxv with
       | .ok a, .ok b => .ok (linspaceQ a b n)
       | _, _ => .error .valueError)
    | .error e, _ => .error e
    | _, .error e => .error e
  else .error .unboundLocal

/-- `ftsreader.get_datablocks`: look the block up in the directory and read
its samples.  `search_block` returns `None` for a missing name, and the
subsequent subscript `self.search_block(block)[.offset.]` then raises
`TypeError` — there is no dedicated not-found error on this path. -/
def get_datablocks (data : List ℕ) (fs : Dir) (header : Hdr) (block : String) :
    Except PyErr (List ℚ × List PyFloat) :=
  match search_block fs block with
  | none => .error .typeErrorNone
  | some info =>
    match get_block data info.offset info.length with
    | .error e => .error e
    | .ok yax =>
      match xaxFor header block yax.length with
      | .error e => .error e
      | .ok xax => .ok (xax, yax)

/-- Shape of the value `ftsreader.search_header_par` returns: the single
containing block name as a string, the list of names when the parameter occurs
in several blocks, or Python `None` when it occurs in none. -/
inductive SearchOut where
  | one (s : String)
  | many (l : List String)
  | noneFound
  deriving DecidableEq

/-- The collection loop of `ftsreader.search_header_par`: walk all blocks and
all their parameter tags, appending the block name once per matching tag. -/
def searchPars (header : Hdr) (par : String) : List String :=
  header.foldl
    (fun (acc : List String) (bi : String × List (String × HVal)) =>
      acc ++ (bi.2.filter (fun pj => pj.1 = par)).map (fun _ => bi.1)) []

/-- `ftsreader.search_header_par`: branch on how many blocks contain `par`. -/
def search_header_par (header : Hdr) (par : String) : SearchOut :=
  let pars := searchPars header par
  if pars.length = 1 then .one (pars.getD 0 "")
  else if 1 < pars.length then .many pars
  else .noneFound

/-- `ftsreader.get_header_par`: evaluate
`self.header[self.search_header_par(par)][par]` under a bare `except` that
returns `None`.  Subscripting with a list (`many`) or `None` raises and is
caught; only the single-block shape can deliver a value. -/
def get_header_par (header : Hdr) (par : String) : Option HVal :=
  match search_header_par header par with
  | .one n =>
    ((header.find? (fun p => p.1 = n)).map (fun p => p.2)).bind
      (fun ps => ((ps.find? (fun p => p.1 = par)).map (fun p => p.2)))
  | _ => none

/-- Observable attribute state of a freshly constructed `ftsreader`.
Attributes that the failed control path never assigns (`fs`, `header`,
`ifg`) are `none`. -/
structure InitResult where
  status : Bool
  isftsfile : Bool
  fs : Option Dir
  header : Option Hdr
  ifg : Option (List ℚ × List PyFloat)

/-- `ftsreader.__init__` for a byte source (with `getslices=False`): test the
magic; on failure `status` is false, `read_header` is never reached and the
raised `ValueError` is caught by the surrounding `try`.  On success the header
is read (a scan failure is caught, leaving the attributes unset) and the
interferogram block is extracted when requested and present. -/
def ftsInit (data : List ℕ) (getifg : Bool) : InitResult :=
  if test_if_ftsfile data then
    match read_header data with
    | .ok (fs, hdr) =>
      if getifg ∧ has_block fs "Data Block IgSm" then
        match get_datablocks data fs hdr "Data Block IgSm" with
        | .ok xy => ⟨true, true, some fs, some hdr, some xy⟩
        | .error _ => ⟨true, true, some fs, some hdr, none⟩
      else ⟨true, true, some fs, some hdr, none⟩
    | .error _ => ⟨true, true, none, none, none⟩
  else ⟨false, false, none, none, none⟩

/-! ## The interferogram smoother `smooth_ifg` -/

/-- The raised-cosine ramp `((np.cos(np.pi*np.arange(l)/l)+1)**2/4)` used at
both edges of the apodization window. -/
noncomputable def rampList (l : ℕ) : List ℝ :=
  (List.range l).map (fun (k : ℕ) => (Real.cos (Real.pi * k / l) + 1) ^ 2 / 4)

/-- Apodization-window construction of `smooth_ifg` (lines `p = 5` through
`a1[-l:] = ...`): start from `np.ones(l0)`, write the reversed ramp over the
first `l` cells and the forward ramp over the last `l` cells, where
`l = int(l0*5/100.0)`.  The float expression `l0*5/100.0` is exact up to
`l0*5 < 2^53`, so the truncation equals natural division by 100.  With
`l = 0` and `l0 > 0` the slice `a1[-0:]` is the whole array and receives an
empty ramp: a broadcast `ValueError`. -/
noncomputable def buildA1 (l0 : ℕ) : Except PyErr (List ℝ) :=
  let l := l0 * 5 / 100
  match npSetFront (List.replicate l0 (1 : ℝ)) l (rampList l).reverse with
  | .error e => .error e
  | .ok a => npSetBack a l (rampList l)

/-- The spectral taper `sfunc = lambda nu, cutoff: np.cos(np.pi*nu/(2*cutoff))**2`. -/
noncomputable def sfunc (nu cutoff : ℚ) : ℝ :=
  Real.cos (Real.pi * (nu : ℝ) / (2 * (cutoff : ℝ))) ^ 2

/-- Filter-window construction of `smooth_ifg` (lines `a2 = np.ones(...)`
through `a2[-l:] = ...`): the window starts as `np.ones(n)*(0+0j)` — that is,
all zeros — then the taper of the first `lcut` wavenumbers is written over the
first `lcut` cells and, reversed, over the last `lcut` cells.  With `lcut = 0`
and `n > 0` the slice `a2[-0:]` is the whole array and receives an empty
taper: a broadcast `ValueError`. -/
noncomputable def buildA2 (n lcut : ℕ) (wvn : List ℚ) (cutoff : ℚ) :
    Except PyErr (List ℂ) :=
  let a0 : List ℂ := (List.replicate n (1 : ℂ)).map (fun x => x * 0)
  match npSetFront a0 lcut ((wvn.take lcut).map (fun nu => ((sfunc nu cutoff : ℝ) : ℂ))) with
  | .error e => .error e
  | .ok a =>
    npSetBack a lcut (((wvn.take lcut).reverse).map (fun nu => ((sfunc nu cutoff : ℝ) : ℂ)))

/-- First half of `np.fft.fftfreq(n, 0.5/lwn)`: the `⌊n/2⌋` non-negative
frequency bins `k / (d*n)` with `d = 0.5/lwn`. -/
def fftfreqHalf (n : ℕ) (lwn : ℚ) : List ℚ :=
  let d : ℚ := 1 / 2 / lwn
  (List.range (n / 2)).map (fun (k : ℕ) => (k : ℚ) / (d * n))

/-- The discrete Fourier transform with the numpy sign convention,
`X_k = Σ_j x_j · exp(-2πi·jk/n)`. -/
noncomputable def dft (x : List ℂ) : List ℂ :=
  (List.range x.length).map (fun (k : ℕ) =>
    ∑ j ∈ Finset.range x.length,
      x.getD j 0 * Complex.exp (-(2 * Real.pi * Complex.I * j * k) / x.length))

/-- The inverse transform, `x_j = (1/n) Σ_k X_k · exp(2πi·jk/n)`. -/
noncomputable def idft (x : List ℂ) : List ℂ :=
  (List.range x.length).map (fun (j : ℕ) =>
    (∑ k ∈ Finset.range x.length,
      x.getD k 0 * Complex.exp ((2 * Real.pi * Complex.I * j * k) / x.length)) / x.length)

/-- Return value of `smooth_ifg`: the real part of the inverse transform, the
filtered spectrum, the apodization window and the wavenumber axis. -/
structure SmoothResult where
  smoothed : List ℝ
  filtered : List ℂ
  apod : List ℝ
  wvn : List ℚ

/-- `smooth_ifg(o, lwn, cutoff, l0)`.  The two attributes the function reads
from its first argument — `o.ifg` and the peak location
`o.header[Instrument Parameters][PKL]` — are passed directly.  Pipeline,
in source order: crop `l0` samples around the peak and subtract the median;
build the apodization window (`buildA1`) and multiply; complex FFT (numpy
rejects an empty input); wavenumber axis from `np.fft.fftfreq` with spacing
`0.5/lwn` (a zero `lwn` is a `ZeroDivisionError`); `lcut` counts the bins
below `cutoff`; build the spectral filter window (`buildA2`), multiply, and
inverse-transform, keeping the real part. -/
noncomputable def smooth_ifg (ifg : List ℚ) (pkl lwn cutoff : ℚ) (l0 : ℕ) :
    Except PyErr SmoothResult :=
  let ifg0 := pySlice ifg (pyInt (pkl - l0 / 2)) (pyInt (pkl + l0 / 2))
  let ifgz := ifg0.map (fun x => x - medianQ ifg0)
  match buildA1 l0 with
  | .error e => .error e
  | .ok a1 =>
    match npMul (ifgz.map (fun (q : ℚ) => (q : ℝ))) a1 with
    | .error e => .error e
    | .ok ifga =>
      if ifga.length = 0 then .error .fftInvalid
      else
        let spc := dft (ifga.map (fun (x : ℝ) => (x : ℂ)))
        if lwn = 0 then .error .zeroDiv
        else
          let wvn := fftfreqHalf spc.length lwn
          let lcut := wvn.countP (fun nu => nu < cutoff)
          match buildA2 spc.length lcut wvn cutoff with
          | .error e => .error e
          | .ok a2 =>
            match npMul a2 spc with
            | .error e => .error e
            | .ok ys => .ok ⟨(idft ys).map Complex.re, ys, a1, wvn⟩

/-! ## Helper lemmas about the model -/

theorem length_rampList (l : ℕ) : (rampList l).length = l := by
  simp only [rampList, List.length_map, List.length_range]

theorem length_dft (x : List ℂ) : (dft x).length = x.length := by
  simp only [dft, List.length_map, List.length_range]

theorem length_fftfreqHalf (n : ℕ) (lwn : ℚ) : (fftfreqHalf n lwn).length = n / 2 := by
  simp only [fftfreqHalf, List.length_map, List.length_range]

theorem fftfreqHalf_nonneg (n : ℕ) (lwn : ℚ) (hl : 0 < lwn) :
    ∀ q ∈ fftfreqHalf n lwn, 0 ≤ q := by
  intro q hq
  simp only [fftfreqHalf, List.mem_map, List.mem_range] at hq
  obtain ⟨k, -, rfl⟩ := hq
  have hd : (0 : ℚ) ≤ 1 / 2 / lwn * n := by positivity
  exact div_nonneg (by positivity) hd

theorem npSetFront_ok {α : Type _} (xs : List α) (l : ℕ) (v : List α)
    (h : v.length = min l xs.length) :
    npSetFront xs l v = .ok (v ++ xs.drop (min l xs.length)) := by
  simp [npSetFront, h]

theorem npSetBack_ok {α : Type _} (xs : List α) (l : ℕ) (v : List α) (hl : l ≠ 0)
    (h : v.length = min l xs.length) :
    npSetBack xs l v = .ok (xs.take (xs.length - min l xs.length) ++ v) := by
  simp [npSetBack, hl, h]

theorem npSetBack_zero_err {α : Type _} (xs v : List α) (h : v.length ≠ xs.length) :
    npSetBack xs 0 v = .error .broadcast := by
  simp [npSetBack, h]

/-- With a positive ramp length (and the always-true bound `2l ≤ l0`), the
apodization window assembles as reversed ramp, flat ones, forward ramp. -/
theorem buildA1_eq (l0 : ℕ) (h1 : 0 < l0 * 5 / 100) (h2 : 2 * (l0 * 5 / 100) ≤ l0) :
    buildA1 l0 = .ok ((rampList (l0 * 5 / 100)).reverse ++
      List.replicate (l0 - 2 * (l0 * 5 / 100)) (1 : ℝ) ++ rampList (l0 * 5 / 100)) := by
  unfold buildA1
  dsimp only
  rw [npSetFront_ok _ _ _
    (by simp only [List.length_reverse, length_rampList, List.length_replicate]; omega)]
  dsimp only
  rw [show min (l0 * 5 / 100) (List.replicate l0 (1 : ℝ)).length = l0 * 5 / 100 from by
    simp only [List.length_replicate]; omega]
  rw [List.drop_replicate]
  rw [npSetBack_ok _ _ _ (by omega)
    (by simp only [length_rampList, List.length_append, List.length_reverse,
          List.length_replicate]; omega)]
  congr 1
  simp only [List.length_append, List.length_reverse, length_rampList, List.length_replicate]
  rw [show min (l0 * 5 / 100) (l0 * 5 / 100 + (l0 - l0 * 5 / 100)) = l0 * 5 / 100 from by omega]
  rw [List.take_append_eq_append_take]
  rw [List.take_of_length_le (by simp only [List.length_reverse, length_rampList]; omega)]
  simp only [List.length_reverse, length_rampList, List.take_replicate, List.append_assoc]
  congr 3
  omega

theorem buildA1_zero : buildA1 0 = .ok [] := by
  simp [buildA1, rampList, npSetFront, npSetBack]

/-- A window length in `1..19` gives ramp length 0, and the assignment of an
empty ramp to the whole-array slice `a1[-0:]` is a broadcast error. -/
theorem buildA1_err (l0 : ℕ) (h0 : l0 ≠ 0) (hl : l0 * 5 / 100 = 0) :
    buildA1 l0 = .error .broadcast := by
  unfold buildA1
  dsimp only
  rw [hl]
  rw [npSetFront_ok _ _ _ (by simp [rampList])]
  dsimp only
  apply npSetBack_zero_err
  simp only [rampList, List.range_zero, List.map_nil, List.reverse_nil, List.length_nil,
    List.nil_append, List.length_drop, List.length_replicate]
  omega

/-- With zero cutoff bins and a nonempty spectrum, the filter-window
construction fails: `a2[-0:]` is the whole array and the taper is empty. -/
theorem buildA2_err (n : ℕ) (wvn : List ℚ) (cutoff : ℚ) (hn : n ≠ 0) :
    buildA2 n 0 wvn cutoff = .error .broadcast := by
  unfold buildA2
  dsimp only
  rw [npSetFront_ok _ _ _ (by simp)]
  dsimp only
  apply npSetBack_zero_err
  simp only [List.take_zero, List.reverse_nil, List.map_nil, List.length_nil, List.nil_append,
    List.length_drop, List.length_map, List.length_replicate]
  omega

/-- With at least one cutoff bin (and the in-context bounds on `lcut`), the
filter window assembles as forward taper, zero middle, reversed taper. -/
theorem buildA2_eq (n lcut : ℕ) (wvn : List ℚ) (cutoff : ℚ)
    (h1 : lcut ≤ wvn.length) (h2 : 2 * lcut ≤ n) (h3 : lcut ≠ 0) :
    buildA2 n lcut wvn cutoff = .ok
      ((wvn.take lcut).map (fun nu => ((sfunc nu cutoff : ℝ) : ℂ)) ++
        List.replicate (n - 2 * lcut) ((1 : ℂ) * 0) ++
        ((wvn.take lcut).reverse).map (fun nu => ((sfunc nu cutoff : ℝ) : ℂ))) := by
  unfold buildA2
  dsimp only
  rw [List.map_replicate]
  rw [npSetFront_ok _ _ _
    (by simp only [List.length_map, List.length_take, List.length_replicate]; omega)]
  dsimp only
  rw [show min lcut (List.replicate n ((1 : ℂ) * 0)).length = lcut from by
    simp only [List.length_replicate]; omega]
  rw [List.drop_replicate]
  rw [npSetBack_ok _ _ _ h3
    (by simp only [List.length_map, List.length_reverse, List.length_take,
          List.length_append, List.length_replicate]; omega)]
  congr 1
  simp only [List.length_append, List.length_map, List.length_take, List.length_replicate]
  rw [show min lcut (min lcut wvn.length + (n - lcut)) = lcut from by omega]
  rw [List.take_append_eq_append_take]
  rw [List.take_of_length_le (by simp only [List.length_map, List.length_take]; omega)]
  simp only [List.length_map, List.length_take, List.take_replicate, List.append_assoc]
  congr 3
  omega

/-- Multiplying any array by an empty array either fails to broadcast or
(when the left side has at most one entry) produces an empty product. -/
theorem npMul_nil_right {α : Type _} [Mul α] (zs : List α) :
    npMul zs ([] : List α) = .error .broadcast ∨ npMul zs ([] : List α) = .ok [] := by
  rcases zs with _ | ⟨a, _ | ⟨b, t⟩⟩ <;> simp [npMul]

/-- Front of the smoothing pipeline: with a full-length crop, a window length
of at least 20 and a nonzero laser wavenumber, everything up to the spectral
filter succeeds, and the outcome is decided by `buildA2` at `lcut` = the
number of wavenumber bins below the cutoff. -/
theorem smooth_ifg_pipeline (ifg : List ℚ) (pkl lwn cutoff : ℚ) (l0 : ℕ)
    (hcrop : (pySlice ifg (pyInt (pkl - l0 / 2)) (pyInt (pkl + l0 / 2))).length = l0)
    (h20 : 20 ≤ l0) (hlwn : lwn ≠ 0) :
    ∃ a1 spc, a1.length = l0 ∧ spc.length = l0 ∧
      smooth_ifg ifg pkl lwn cutoff l0 =
        (match buildA2 l0 ((fftfreqHalf l0 lwn).countP (fun nu => decide (nu < cutoff)))
            (fftfreqHalf l0 lwn) cutoff with
         | .error e => .error e
         | .ok a2 =>
           (match npMul a2 spc with
            | .error e => .error e
            | .ok ys => .ok ⟨(idft ys).map Complex.re, ys, a1, fftfreqHalf l0 lwn⟩)) := by
  have hl1 : 0 < l0 * 5 / 100 := by omega
  have hl2 : 2 * (l0 * 5 / 100) ≤ l0 := by omega
  set crop := pySlice ifg (pyInt (pkl - l0 / 2)) (pyInt (pkl + l0 / 2)) with hcropdef
  set A1 := (rampList (l0 * 5 / 100)).reverse ++
      List.replicate (l0 - 2 * (l0 * 5 / 100)) (1 : ℝ) ++ rampList (l0 * 5 / 100) with hA1
  have hA1len : A1.length = l0 := by
    simp only [hA1, List.length_append, List.length_reverse, length_rampList,
      List.length_replicate]
    omega
  set cropR := (crop.map (fun x => x - medianQ crop)).map (fun (q : ℚ) => (q : ℝ)) with hcropR
  have hcropRlen : cropR.length = l0 := by
    simp only [hcropR, List.length_map, hcrop]
  set ifga := List.zipWith (· * ·) cropR A1 with hifga
  have hifgalen : ifga.length = l0 := by
    simp only [hifga, List.length_zipWith, hcropRlen, hA1len, min_self]
  refine ⟨A1, dft (ifga.map (fun (x : ℝ) => (x : ℂ))), hA1len, ?_, ?_⟩
  · rw [length_dft, List.length_map, hifgalen]
  · have hspc : (dft (ifga.map (fun (x : ℝ) => (x : ℂ)))).length = l0 := by
      rw [length_dft, List.length_map, hifgalen]
    unfold smooth_ifg
    dsimp only
    rw [← hcropdef, ← hcropR, buildA1_eq l0 hl1 hl2, ← hA1]
    dsimp only
    have hmul : npMul cropR A1 = .ok ifga := by
      unfold npMul
      rw [if_pos (by rw [hcropRlen, hA1len])]
    rw [hmul]
    dsimp only
    rw [if_neg (by rw [hifgalen]; omega), if_neg hlwn, hspc]

/-- A window length of zero makes the apodized crop empty (or unbroadcastable),
so the FFT step or the product step fails for every input. -/
theorem smooth_ifg_err_zero (ifg : List ℚ) (pkl lwn cutoff : ℚ) :
    isError (smooth_ifg ifg pkl lwn cutoff 0) = true := by
  unfold smooth_ifg
  dsimp only
  rw [buildA1_zero]
  dsimp only
  rcases npMul_nil_right
      ((List.map (fun x => x - medianQ (pySlice ifg (pyInt (pkl - (0:ℕ) / 2)) (pyInt (pkl + (0:ℕ) / 2))))
        (pySlice ifg (pyInt (pkl - (0:ℕ) / 2)) (pyInt (pkl + (0:ℕ) / 2)))).map (fun (q : ℚ) => (q : ℝ)))
      with h | h <;> rw [h] <;> rfl

/-- A window length in `1..19` fails at the apodization window. -/
theorem smooth_ifg_err_small (ifg : List ℚ) (pkl lwn cutoff : ℚ) (l0 : ℕ)
    (h1 : 1 ≤ l0) (h19 : l0 ≤ 19) :
    smooth_ifg ifg pkl lwn cutoff l0 = .error .broadcast := by
  unfold smooth_ifg
  dsimp only
  rw [buildA1_err l0 (by omega) (by omega)]

/-- Value and bound for the raised-cosine ramp at its far end: at `k = l - 1`
the ramp equals `(1 - cos (π/l))²/4`, which is at most `π⁴/(16 l⁴)`. -/
theorem ramp_end_bound (l : ℕ) (hl : 1 ≤ l) :
    0 ≤ (Real.cos (Real.pi * ((l - 1 : ℕ) : ℝ) / l) + 1) ^ 2 / 4 ∧
      (Real.cos (Real.pi * ((l - 1 : ℕ) : ℝ) / l) + 1) ^ 2 / 4 ≤
        Real.pi ^ 4 / (16 * (l : ℝ) ^ 4) := by
  have hl0 : (0 : ℝ) < l := by exact_mod_cast hl
  have hlne : (l : ℝ) ≠ 0 := ne_of_gt hl0
  set x := Real.pi / l with hx
  have hx0 : 0 < x := div_pos Real.pi_pos hl0
  have hxpi : x ≤ Real.pi :=
    div_le_self Real.pi_pos.le (by exact_mod_cast hl)
  have harg : Real.pi * ((l - 1 : ℕ) : ℝ) / l = Real.pi - x := by
    have hcast : ((l - 1 : ℕ) : ℝ) = (l : ℝ) - 1 := by
      push_cast [hl]
      ring
    rw [hcast, hx]
    field_simp
    ring
  rw [harg, Real.cos_pi_sub]
  have hsin : 1 - Real.cos x = 2 * Real.sin (x / 2) ^ 2 := by
    have := Real.sin_sq_eq_half_sub (x / 2)
    rw [show 2 * (x / 2) = x from by ring] at this
    linarith
  have hs0 : 0 ≤ Real.sin (x / 2) :=
    Real.sin_nonneg_of_nonneg_of_le_pi (by positivity) (by linarith [Real.pi_pos])
  have hsx : Real.sin (x / 2) ≤ x / 2 := Real.sin_le (by positivity)
  constructor
  · positivity
  · have h1 : (-Real.cos x + 1) ^ 2 / 4 = Real.sin (x / 2) ^ 4 := by
      have : -Real.cos x + 1 = 2 * Real.sin (x / 2) ^ 2 := by linarith
      rw [this]
      ring
    have h2 : Real.sin (x / 2) ^ 4 ≤ (x / 2) ^ 4 :=
      pow_le_pow_left₀ hs0 hsx 4
    have h3 : (x / 2) ^ 4 ≤ x ^ 4 / 16 := by
      rw [div_pow]
      norm_num
    have h4 : x ^ 4 / 16 = Real.pi ^ 4 / (16 * (l : ℝ) ^ 4) := by
      rw [hx, div_pow]
      field_simp
      ring
    calc (-Real.cos x + 1) ^ 2 / 4 = Real.sin (x / 2) ^ 4 := h1
      _ ≤ (x / 2) ^ 4 := h2
      _ ≤ x ^ 4 / 16 := h3
      _ = Real.pi ^ 4 / (16 * (l : ℝ) ^ 4) := h4

/-- `getD` through a reversal. -/
theorem getD_reverse {α : Type _} (xs : List α) (i : ℕ) (d : α) (h : i < xs.length) :
    xs.reverse.getD i d = xs.getD (xs.length - 1 - i) d := by
  rw [List.getD_eq_getElem?_getD, List.getD_eq_getElem?_getD,
    List.getElem?_reverse (by simpa using h)]

/-- `getD` of a replicated list inside its bounds. -/
theorem getD_replicate {α : Type _} (n i : ℕ) (c d : α) (h : i < n) :
    (List.replicate n c).getD i d = c := by
  rw [List.getD_eq_getElem?_getD, List.getElem?_replicate]
  simp [h]

/-- Entry `i < l` of the raised-cosine ramp. -/
theorem rampList_getD (l i : ℕ) (h : i < l) :
    (rampList l).getD i 0 = (Real.cos (Real.pi * i / l) + 1) ^ 2 / 4 := by
  rw [List.getD_eq_getElem?_getD, rampList, List.getElem?_map]
  simp [List.getElem?_range, h]

/-! ## Claim C8: structure of the apodization window -/

/-- Counterexample to claim C8 as stated: at the admissible window length
`l0 = 20` the ramp length is `int(20*5/100) = 1` (conjunct 1), the whole ramp
is the single sample `(cos(π·0/1)+1)²/4 = 1`, and therefore `window[0] = 1`
exactly — the maximum value the window takes, not approximately 0.  The claim
conjunct `window[0] ≈ 0` is false for every window length in `[20, 39]`. -/
theorem c8_counterexample :
    (20 : ℕ) * 5 / 100 = 1 ∧ ∃ a, buildA1 20 = .ok a ∧ a.getD 0 0 = 1 := by
  refine ⟨by norm_num, ?_⟩
  have hb := buildA1_eq 20 (by norm_num) (by norm_num)
  norm_num at hb
  refine ⟨_, hb, ?_⟩
  rw [List.getD_append _ _ _ _
      (by simp only [List.length_reverse, length_rampList]; norm_num),
    getD_reverse _ _ _ (by simp only [length_rampList]; norm_num), length_rampList,
    rampList_getD _ _ (by norm_num)]
  norm_num [Real.cos_zero]

/-- Claim C8, amended.  For any admissible window length (`l0 ≥ 20`, the
regime in which the construction succeeds at all — see C10), the apodization
window built by `smooth_ifg` has length exactly `l0`; every interior sample
(index `i` with `l ≤ i < l0 - l`, in particular the middle sample `a[l0/2]`)
is 1; its first `l = int(l0*5/100)` samples are the raised-cosine ramp
`((cos(π·k/l)+1)²/4)` in reversed order and its last `l` samples are the same
ramp in forward order.  But `window[0]` is not approximately 0 in general: it
equals the far ramp sample `(cos(π·(l-1)/l)+1)²/4 = (1-cos(π/l))²/4`, which
lies in `[0, π⁴/(16·l⁴)]` and so approaches 0 only as the ramp length grows;
for `l0` in `[20, 39]` the ramp length is `l = 1` and `window[0] = 1`
exactly (see the counterexample). -/
theorem c8_apodization_window (l0 : ℕ) (h20 : 20 ≤ l0) :
    ∃ a, buildA1 l0 = .ok a ∧
      a.length = l0 ∧
      (∀ i, l0 * 5 / 100 ≤ i → i < l0 - l0 * 5 / 100 → a.getD i 0 = 1) ∧
      a.getD (l0 / 2) 0 = 1 ∧
      (∀ i, i < l0 * 5 / 100 →
        a.getD i 0 = (rampList (l0 * 5 / 100)).getD (l0 * 5 / 100 - 1 - i) 0) ∧
      (∀ i, i < l0 * 5 / 100 →
        a.getD (l0 - l0 * 5 / 100 + i) 0 = (rampList (l0 * 5 / 100)).getD i 0) ∧
      a.getD 0 0 =
        (Real.cos (Real.pi * ((l0 * 5 / 100 - 1 : ℕ) : ℝ) / ((l0 * 5 / 100 : ℕ) : ℝ)) + 1) ^ 2 / 4 ∧
      0 ≤ a.getD 0 0 ∧
      a.getD 0 0 ≤ Real.pi ^ 4 / (16 * ((l0 * 5 / 100 : ℕ) : ℝ) ^ 4) := by
  have h2l : 2 * (l0 * 5 / 100) ≤ l0 := by omega
  have hl1 : 1 ≤ l0 * 5 / 100 := by omega
  set A := (rampList (l0 * 5 / 100)).reverse ++
      List.replicate (l0 - 2 * (l0 * 5 / 100)) (1 : ℝ) ++ rampList (l0 * 5 / 100) with hA
  have hfront : ((rampList (l0 * 5 / 100)).reverse ++
      List.replicate (l0 - 2 * (l0 * 5 / 100)) (1 : ℝ)).length = l0 - l0 * 5 / 100 := by
    simp only [List.length_append, List.length_reverse, length_rampList, List.length_replicate]
    omega
  have hlead : ∀ i, i < l0 * 5 / 100 →
      A.getD i 0 = (rampList (l0 * 5 / 100)).getD (l0 * 5 / 100 - 1 - i) 0 := by
    intro i hi
    rw [hA, List.getD_append _ _ _ _ (by rw [hfront]; omega),
      List.getD_append _ _ _ _ (by rw [List.length_reverse, length_rampList]; omega),
      getD_reverse _ _ _ (by rw [length_rampList]; omega), length_rampList]
  have hinterior : ∀ i, l0 * 5 / 100 ≤ i → i < l0 - l0 * 5 / 100 → A.getD i 0 = 1 := by
    intro i hge hlt
    rw [hA, List.getD_append _ _ _ _ (by rw [hfront]; omega),
      List.getD_append_right _ _ _ _ (by rw [List.length_reverse, length_rampList]; omega),
      List.length_reverse, length_rampList]
    exact getD_replicate _ _ _ _ (by omega)
  refine ⟨A, buildA1_eq l0 (by omega) h2l, ?_, hinterior,
    hinterior (l0 / 2) (by omega) (by omega), hlead, ?_, ?_, ?_, ?_⟩
  · simp only [hA, List.length_append, List.length_reverse, length_rampList,
      List.length_replicate]
    omega
  · intro i hi
    rw [hA, List.getD_append_right _ _ _ _ (by rw [hfront]; omega)]
    congr 1
    rw [hfront]
    omega
  · rw [hlead 0 (by omega), rampList_getD _ _ (by omega)]
    norm_num
  · rw [hlead 0 (by omega), rampList_getD _ _ (by omega)]
    have h := (ramp_end_bound (l0 * 5 / 100) hl1).1
    simpa using h
  · rw [hlead 0 (by omega), rampList_getD _ _ (by omega)]
    have h := (ramp_end_bound (l0 * 5 / 100) hl1).2
    simpa using h

/-- Witness for the amended C8 at `l0 = 40`: the hypothesis holds and the
window exists with length 40, an interior sample (index 7) equal to 1, and
the middle sample equal to 1. -/
theorem c8_witness :
    20 ≤ 40 ∧ ∃ a, buildA1 40 = .ok a ∧ a.length = 40 ∧
      a.getD 7 0 = 1 ∧ a.getD 20 0 = 1 := by
  refine ⟨by norm_num, ?_⟩
  obtain ⟨a, ha, hlen, hint, hmid, -⟩ := c8_apodization_window 40 (by norm_num)
  exact ⟨a, ha, hlen, hint 7 (by norm_num) (by norm_num), hmid⟩

/-- Tail of the smoothing pipeline: once the filter window exists and matches
the spectrum in length, the final product and inverse transform succeed. -/
theorem isError_tail_ok (a2 spc : List ℂ) (a1 : List ℝ) (wvn : List ℚ)
    (h : a2.length = spc.length) :
    isError (match npMul a2 spc with
             | .error e => (.error e : Except PyErr SmoothResult)
             | .ok ys => .ok ⟨(idft ys).map Complex.re, ys, a1, wvn⟩) = false := by
  have hmul : npMul a2 spc = .ok (List.zipWith (· * ·) a2 spc) := by
    unfold npMul
    rw [if_pos h]
  rw [hmul]
  rfl

/-! ## Claim C10: the smoother needs a window length of at least 20 -/

/-- Claim C10 (confirmed).  `smooth_ifg` produces a result only when the
apodization ramp length `int(l0*5/100)` is at least 1, i.e. `l0 ≥ 20`; and for
every window length from 1 to 19 the window construction fails with the
broadcast error of an empty ramp assigned over the whole window, so no result
is produced. -/
theorem c10_window_length_guard (ifg : List ℚ) (pkl lwn cutoff : ℚ) (l0 : ℕ) :
    (isError (smooth_ifg ifg pkl lwn cutoff l0) = false → 20 ≤ l0) ∧
      (1 ≤ l0 → l0 ≤ 19 → smooth_ifg ifg pkl lwn cutoff l0 = .error .broadcast) := by
  constructor
  · intro hok
    by_contra hlt
    rcases Nat.eq_zero_or_pos l0 with h0 | h1
    · rw [h0] at hok
      rw [smooth_ifg_err_zero ifg pkl lwn cutoff] at hok
      exact absurd hok (by decide)
    · rw [smooth_ifg_err_small ifg pkl lwn cutoff l0 h1 (by omega)] at hok
      exact absurd hok (by decide)
  · intro h1 h19
    exact smooth_ifg_err_small ifg pkl lwn cutoff l0 h1 h19

/-- Witness for C10: at `l0 = 20` the smoother succeeds (so the first
hypothesis is dischargeable), and at `l0 = 5` it fails with the broadcast
error. -/
theorem c10_witness :
    isError (smooth_ifg (List.replicate 20 (0 : ℚ)) 10 1 100 20) = false ∧
      20 ≤ 20 ∧ 1 ≤ 5 ∧ 5 ≤ 19 ∧
      smooth_ifg ([] : List ℚ) 0 1 0 5 = .error .broadcast := by
  have hcrop : (pySlice (List.replicate 20 (0 : ℚ))
      (pyInt ((10 : ℚ) - (20 : ℕ) / 2)) (pyInt ((10 : ℚ) + (20 : ℕ) / 2))).length = 20 := by
    have ha : pyInt ((10 : ℚ) - (20 : ℕ) / 2) = 0 := by norm_num [pyInt]
    have hb : pyInt ((10 : ℚ) + (20 : ℕ) / 2) = 20 := by norm_num [pyInt]
    rw [ha, hb]
    decide
  obtain ⟨a1, spc, ha1, hspc, heq⟩ :=
    smooth_ifg_pipeline (List.replicate 20 (0 : ℚ)) 10 1 100 20 hcrop (by norm_num)
      (by norm_num)
  have hwl : (fftfreqHalf 20 1).length = 10 := by rw [length_fftfreqHalf]
  have hcnt_le : (fftfreqHalf 20 1).countP (fun nu => decide (nu < 100)) ≤ 10 := by
    rw [← hwl]; exact List.countP_le_length _
  have hcnt_pos : 0 < (fftfreqHalf 20 1).countP (fun nu => decide (nu < 100)) := by
    rw [List.countP_pos_iff]
    refine ⟨(0 : ℚ) / (1 / 2 / 1 * (20 : ℕ)), ?_, by norm_num⟩
    simp only [fftfreqHalf, List.mem_map, List.mem_range]
    exact ⟨0, by norm_num, by norm_num⟩
  refine ⟨?_, by norm_num, by norm_num, by norm_num,
    (c10_window_length_guard [] 0 1 0 5).2 (by norm_num) (by norm_num)⟩
  have ha2 := buildA2_eq 20 ((fftfreqHalf 20 1).countP (fun nu => decide (nu < 100)))
    (fftfreqHalf 20 1) 100 (by rw [hwl]; omega) (by omega) (by omega)
  rw [heq, ha2]
  exact isError_tail_ok _ _ _ _ (by
    simp only [List.length_append, List.length_map, List.length_take, List.length_reverse,
      List.length_replicate, hwl, hspc]
    omega)

/-! ## Claim C2: behaviour of the filter when no bin is below the cutoff -/

/-- Claim C2, amended.  The claim asserted that with cutoff index `l = 0` the
filter acts as the identity and `smooth_ifg` returns the apodized crop.  In
the code, `l = 0` makes the slice `a2[-0:]` the whole array; assigning the
empty taper to it is a numpy broadcast error, so `smooth_ifg` returns nothing
at all (and the window, initialized to zeros rather than ones, could never act
as the identity anyway — see C1). -/
theorem c2_lcut_zero_is_error (ifg : List ℚ) (pkl lwn cutoff : ℚ) (l0 : ℕ)
    (hcrop : (pySlice ifg (pyInt (pkl - l0 / 2)) (pyInt (pkl + l0 / 2))).length = l0)
    (h20 : 20 ≤ l0) (hlwn : lwn ≠ 0)
    (hlcut : (fftfreqHalf l0 lwn).countP (fun nu => decide (nu < cutoff)) = 0) :
    smooth_ifg ifg pkl lwn cutoff l0 = .error .broadcast := by
  obtain ⟨a1, spc, ha1, hspc, heq⟩ :=
    smooth_ifg_pipeline ifg pkl lwn cutoff l0 hcrop h20 hlwn
  rw [heq, hlcut, buildA2_err _ _ _ (by omega)]

/-- Counterexample to claim C2 as stated: a concrete 20-sample input whose
cutoff index is 0 (conjunct 2) on which `smooth_ifg` raises the broadcast
error instead of returning the apodized-but-unfiltered crop. -/
theorem c2_counterexample :
    smooth_ifg (List.replicate 20 (0 : ℚ)) 10 1 0 20 = .error .broadcast ∧
      (fftfreqHalf 20 1).countP (fun nu => decide (nu < 0)) = 0 := by
  have hcnt : (fftfreqHalf 20 1).countP (fun nu => decide (nu < 0)) = 0 := by
    rw [List.countP_eq_zero]
    intro q hq
    have h0 := fftfreqHalf_nonneg 20 1 (by norm_num) q hq
    simp only [decide_eq_true_eq]
    exact not_lt.mpr h0
  have hcrop : (pySlice (List.replicate 20 (0 : ℚ))
      (pyInt ((10 : ℚ) - (20 : ℕ) / 2)) (pyInt ((10 : ℚ) + (20 : ℕ) / 2))).length = 20 := by
    have ha : pyInt ((10 : ℚ) - (20 : ℕ) / 2) = 0 := by norm_num [pyInt]
    have hb : pyInt ((10 : ℚ) + (20 : ℕ) / 2) = 20 := by norm_num [pyInt]
    rw [ha, hb]
    decide
  refine ⟨?_, hcnt⟩
  obtain ⟨a1, spc, -, -, heq⟩ :=
    smooth_ifg_pipeline (List.replicate 20 (0 : ℚ)) 10 1 0 20 hcrop (by norm_num) (by norm_num)
  rw [heq, hcnt, buildA2_err _ _ _ (by omega)]

/-- Witness for the amended C2 at a second concrete input (`l0 = 40`,
`cutoff = -1`): all hypotheses hold and the smoother fails with the broadcast
error. -/
theorem c2_witness :
    (pySlice (List.replicate 40 (0 : ℚ))
        (pyInt ((20 : ℚ) - (40 : ℕ) / 2)) (pyInt ((20 : ℚ) + (40 : ℕ) / 2))).length = 40 ∧
      20 ≤ 40 ∧ (2 : ℚ) ≠ 0 ∧
      (fftfreqHalf 40 2).countP (fun nu => decide (nu < -1)) = 0 ∧
      smooth_ifg (List.replicate 40 (0 : ℚ)) 20 2 (-1) 40 = .error .broadcast := by
  have hcrop : (pySlice (List.replicate 40 (0 : ℚ))
      (pyInt ((20 : ℚ) - (40 : ℕ) / 2)) (pyInt ((20 : ℚ) + (40 : ℕ) / 2))).length = 40 := by
    have ha : pyInt ((20 : ℚ) - (40 : ℕ) / 2) = 0 := by norm_num [pyInt]
    have hb : pyInt ((20 : ℚ) + (40 : ℕ) / 2) = 40 := by norm_num [pyInt]
    rw [ha, hb]
    decide
  have hcnt : (fftfreqHalf 40 2).countP (fun nu => decide (nu < -1)) = 0 := by
    rw [List.countP_eq_zero]
    intro q hq
    have h0 := fftfreqHalf_nonneg 40 2 (by norm_num) q hq
    simp only [decide_eq_true_eq]
    intro hlt
    linarith
  exact ⟨hcrop, by norm_num, by norm_num, hcnt,
    c2_lcut_zero_is_error _ 20 2 (-1) 40 hcrop (by norm_num) (by norm_num) hcnt⟩

/-! ## Claim C1: structure of the spectral filter window -/

/-- `getD` through `map`, inside bounds. -/
theorem getD_map_of_lt {α β : Type _} (f : α → β) (l : List α) (i : ℕ) (d : β) (d0 : α)
    (h : i < l.length) : (l.map f).getD i d = f (l.getD i d0) := by
  rw [List.getD_eq_getElem?_getD, List.getElem?_map, List.getD_eq_getElem?_getD,
    List.getElem?_eq_getElem h]
  simp

/-- `getD` through `take`, inside bounds. -/
theorem getD_take_of_lt {α : Type _} (l : List α) (k i : ℕ) (d : α) (h : i < k) :
    (l.take k).getD i d = l.getD i d := by
  rw [List.getD_eq_getElem?_getD, List.getD_eq_getElem?_getD, List.getElem?_take]
  simp [h]

/-- Claim C1, amended.  The filter window applied to the spectrum has length
equal to the spectrum length; the raised-cosine taper `sfunc` is applied over
the first `lcut` bins in ascending wavenumber and, mirrored in reverse order,
over the last `lcut` bins — but all middle bins are multiplied by 0, not 1:
the window is built from `np.ones(n)*(0+0j)`, which is the zero array, so the
stopband is zeroed rather than left untouched.  (The bounds `lcut ≤ |wvn|`,
`2·lcut ≤ n`, `lcut ≠ 0` hold at the call site in `smooth_ifg`, where `wvn`
has `n/2` entries and `lcut` counts those below the cutoff; for `lcut = 0` the
construction fails instead — see C2.) -/
theorem c1_filter_window (n lcut : ℕ) (wvn : List ℚ) (cutoff : ℚ)
    (h1 : lcut ≤ wvn.length) (h2 : 2 * lcut ≤ n) (h3 : lcut ≠ 0) :
    ∃ a, buildA2 n lcut wvn cutoff = .ok a ∧ a.length = n ∧
      (∀ i, i < lcut → a.getD i 0 = ((sfunc (wvn.getD i 0) cutoff : ℝ) : ℂ)) ∧
      (∀ i, lcut ≤ i → i < n - lcut → a.getD i 0 = 0) ∧
      (∀ i, i < lcut →
        a.getD (n - lcut + i) 0 = ((sfunc (wvn.getD (lcut - 1 - i) 0) cutoff : ℝ) : ℂ)) := by
  have htk : (wvn.take lcut).length = lcut := by
    rw [List.length_take]
    omega
  have hfront : ((wvn.take lcut).map (fun nu => ((sfunc nu cutoff : ℝ) : ℂ)) ++
      List.replicate (n - 2 * lcut) ((1 : ℂ) * 0)).length = n - lcut := by
    simp only [List.length_append, List.length_map, htk, List.length_replicate]
    omega
  refine ⟨_, buildA2_eq n lcut wvn cutoff h1 h2 h3, ?_, ?_, ?_, ?_⟩
  · simp only [List.length_append, List.length_map, List.length_reverse, htk,
      List.length_replicate]
    omega
  · intro i hi
    rw [List.getD_append _ _ _ _ (by rw [hfront]; omega),
      List.getD_append _ _ _ _ (by rw [List.length_map, htk]; omega),
      getD_map_of_lt _ _ _ _ 0 (by rw [htk]; omega),
      getD_take_of_lt _ _ _ _ hi]
  · intro i hge hlt
    rw [List.getD_append _ _ _ _ (by rw [hfront]; omega),
      List.getD_append_right _ _ _ _ (by rw [List.length_map, htk]; omega),
      List.length_map, htk, getD_replicate _ _ _ _ (by omega)]
    exact one_mul (0 : ℂ)
  · intro i hi
    rw [List.getD_append_right _ _ _ _ (by rw [hfront]; omega), hfront,
      show n - lcut + i - (n - lcut) = i from by omega,
      getD_map_of_lt _ _ _ _ 0 (by rw [List.length_reverse, htk]; omega),
      getD_reverse _ _ _ (by rw [htk]; omega), htk,
      getD_take_of_lt _ _ _ _ (by omega)]

/-- Counterexample to claim C1 as stated: at a concrete spectrum length 8 with
cutoff index 2 (conjunct 3 checks the index against the wavenumber axis), a
middle bin of the filter window is 0, not 1. -/
theorem c1_counterexample :
    (buildA2 8 2 [0, 1, 2, 3] 2).map (fun a => a.getD 4 1) = .ok 0 ∧
      (0 : ℂ) ≠ 1 ∧
      ([0, 1, 2, 3] : List ℚ).countP (fun nu => decide (nu < 2)) = 2 := by
  have h : (buildA2 8 2 [0, 1, 2, 3] 2).map (fun a => a.getD 4 1) = .ok ((1 : ℂ) * 0) := by
    rfl
  refine ⟨?_, zero_ne_one, by decide⟩
  rw [h, mul_zero]

/-- Witness for the amended C1 at the same sizes: the hypotheses hold, the
window exists with length 8, and its middle bin 4 is zero. -/
theorem c1_witness :
    2 ≤ ([0, 1, 2, 3] : List ℚ).length ∧ 2 * 2 ≤ 8 ∧ (2 : ℕ) ≠ 0 ∧
      ∃ a, buildA2 8 2 [0, 1, 2, 3] 2 = .ok a ∧ a.length = 8 ∧ a.getD 4 0 = 0 := by
  refine ⟨by decide, by decide, by decide, ?_⟩
  obtain ⟨a, ha, hlen, -, hmid, -⟩ :=
    c1_filter_window 8 2 [0, 1, 2, 3] 2 (by decide) (by decide) (by decide)
  exact ⟨a, ha, hlen, hmid 4 (by decide) (by decide)⟩

/-! ## Claim C4: bad magic rejects the source without parsing -/

/-- Claim C4 (confirmed).  For every source whose first 4 bytes differ from
`0A 0A FE FE`, construction ends with `status = false`, `isftsfile = false`,
and neither the block directory nor the header is ever created (`read_header`
is not reached, so the attributes stay absent — the empty directory): no
further parsing of the source is attempted. -/
theorem c4_bad_magic (data : List ℕ) (getifg : Bool) (h : readBytes data 0 4 ≠ ftsMagic) :
    ftsInit data getifg = ⟨false, false, none, none, none⟩ := by
  have ht : test_if_ftsfile data = false := by
    simp [test_if_ftsfile, h]
  simp [ftsInit, ht]

/-- Witness for C4 at a concrete three-byte source. -/
theorem c4_witness :
    readBytes [0, 1, 2] 0 4 ≠ ftsMagic ∧
      ftsInit [0, 1, 2] true = ⟨false, false, none, none, none⟩ :=
  ⟨by decide, c4_bad_magic [0, 1, 2] true (by decide)⟩

/-! ## Claim C3: extraction of a missing block -/

/-- Counterexample to claim C3 as stated: extracting a block absent from an
empty directory fails, but with the `TypeError` of subscripting the `None`
that `search_block` returns — not with the recoverable `BlockNotFoundError`
the specification postulates. -/
theorem c3_counterexample :
    get_datablocks [] [] [] "Data Block IgSm" = .error .typeErrorNone ∧
      PyErr.typeErrorNone ≠ PyErr.blockNotFound :=
  ⟨rfl, by decide⟩

/-- Claim C3, amended.  For every directory and block name absent from its
keys, `get_datablocks` fails — but the failure is the `TypeError` raised by
`self.search_block(block)[.offset.]` after `search_block` logs the miss and
falls through to `None`; no dedicated recoverable block-not-found error
exists on this path. -/
theorem c3_missing_block_type_error (data : List ℕ) (fs : Dir) (header : Hdr)
    (block : String) (h : has_block fs block = false) :
    get_datablocks data fs header block = .error .typeErrorNone := by
  have hfind : fs.find? (fun p => p.1 = block) = none := by
    rw [List.find?_eq_none]
    intro p hp hx
    have : has_block fs block = true := by
      unfold has_block
      rw [List.any_eq_true]
      exact ⟨p, hp, hx⟩
    rw [h] at this
    cases this
  unfold get_datablocks search_block
  rw [hfind]
  rfl

/-- Witness for the amended C3 at a concrete one-entry directory. -/
theorem c3_witness :
    has_block [("Data Block SpSm", ⟨"7", "4", 4, 0⟩)] "Data Block IgSm" = false ∧
      get_datablocks [] [("Data Block SpSm", ⟨"7", "4", 4, 0⟩)] [] "Data Block IgSm" =
        .error .typeErrorNone :=
  ⟨by decide,
    c3_missing_block_type_error [] [("Data Block SpSm", ⟨"7", "4", 4, 0⟩)] [] "Data Block IgSm"
      (by decide)⟩

/-! ## Claim C5: no silent short reads from a data block -/

/-- Length of the 4-byte chunking. -/
theorem chunk4_length : ∀ bs : List ℕ, (chunk4 bs).length = bs.length / 4
  | [] => by simp [chunk4]
  | [_] => by simp [chunk4]
  | [_, _] => by simp [chunk4]
  | [_, _, _] => by simp [chunk4]
  | a :: b :: c :: d :: rest => by
    simp only [chunk4, List.length_cons]
    rw [chunk4_length rest]
    omega

/-- Counterexample to claim C5 as stated: a zero-length read request whose
offset lies past the end of the source succeeds with an empty array (numpy
`struct.unpack` of zero floats from an empty buffer), instead of failing with an I/O error, even though
`offset + length` exceeds the available byte length. -/
theorem c5_counterexample :
    get_block (sourceBytes .mem []) 100 0 = .ok [] ∧
      (sourceBytes FileMode.mem []).length < 100 + 4 * 0 :=
  ⟨rfl, by decide⟩

/-- Claim C5, amended.  For every byte-source construction and every read
request of at least one sample whose byte range `[ptr, ptr + 4·len)` goes past
the available length, `get_block` fails (the short read trips the
`struct.unpack` size check); and every successful `get_block` returns exactly
the requested number of samples — there are no silent short reads.  Only the
degenerate zero-length request escapes the failure clause. -/
theorem c5_read_exact (mode : FileMode) (data : List ℕ) (ptr len : ℤ) :
    (1 ≤ len → (sourceBytes mode data).length < ptr.toNat + 4 * len.toNat →
      isError (get_block (sourceBytes mode data) ptr len) = true) ∧
    (∀ r, get_block (sourceBytes mode data) ptr len = .ok r → r.length = len.toNat) := by
  constructor
  · intro hlen hover
    unfold get_block
    rw [if_neg (by omega)]
    by_cases hp : ptr < 0
    · rw [if_pos hp]
      rfl
    · rw [if_neg hp]
      have hshort : (readBytes (sourceBytes mode data) ptr.toNat (4 * len.toNat)).length ≠
          4 * len.toNat := by
        simp only [readBytes, List.length_take, List.length_drop]
        omega
      simp only [hshort, if_false]
      rfl
  · intro r hr
    unfold get_block at hr
    by_cases h1 : len < 0
    · rw [if_pos h1] at hr
      cases hr
    · rw [if_neg h1] at hr
      by_cases h2 : ptr < 0
      · rw [if_pos h2] at hr
        cases hr
      · rw [if_neg h2] at hr
        by_cases h3 : (readBytes (sourceBytes mode data) ptr.toNat (4 * len.toNat)).length =
            4 * len.toNat
        · rw [if_pos h3] at hr
          cases hr
          rw [List.length_map, chunk4_length, h3]
          omega
        · rw [if_neg h3] at hr
          cases hr

/-- Witness for the amended C5: an over-long request on a four-byte memory
source fails, and a one-sample request on the same source returns exactly one
sample. -/
theorem c5_witness :
    (1 : ℤ) ≤ 2 ∧ (sourceBytes FileMode.mem [1, 2, 3, 4]).length < (0 : ℤ).toNat + 4 * (2 : ℤ).toNat ∧
      isError (get_block (sourceBytes .mem [1, 2, 3, 4]) 0 2) = true ∧
      ∃ r, get_block (sourceBytes .mem [1, 2, 3, 4]) 0 1 = .ok r ∧ r.length = (1 : ℤ).toNat := by
  refine ⟨by norm_num, by decide, ?_, ?_⟩
  · exact (c5_read_exact .mem [1, 2, 3, 4] 0 2).1 (by norm_num) (by decide)
  · exact ⟨_, rfl, (c5_read_exact .mem [1, 2, 3, 4] 0 1).2 _ rfl⟩

/-! ## Claim C6: records with unknown type codes -/

/-- A type code outside 0–4 decodes, without any exception, to the placeholder
text `"[read error]"`, whatever the payload. -/
theorem decodeVal_unknown (ty wc : ℕ) (payload : List ℕ) (h : 4 < ty) :
    decodeVal ty wc payload = some (.strv "[read error]") := by
  unfold decodeVal
  rw [if_neg (by omega), if_neg (by omega), if_neg (by omega)]

/-- Counterexample to claim C6 as stated: a block holding one record with type
code 5 (not in 0–4) followed by an `END` terminator decodes to a mapping that
stores the string `"[read error]"` under the record tag `ABC` — a value is
stored, contradicting the log-and-skip behaviour the claim describes. -/
theorem c6_counterexample :
    getparamsfromblock
        [65, 66, 67, 0, 5, 0, 1, 0, 9, 9, 69, 78, 68, 0, 0, 0, 0, 0] 0 0 =
      .ok [("ABC", .strv "[read error]")] := by
  rfl

/-- Claim C6, amended.  A parameter record whose type code is not one of
0, 1, 2, 3, 4 does not abort the block and no exception propagates — but
rather than being skipped with nothing stored, the placeholder string
`"[read error]"` is stored under the record tag, and decoding continues with
the remaining records of the block (no log entry is written for it either,
since the `except` only logs exceptions). -/
theorem c6_unknown_type_stores_placeholder (data : List ℕ) (off : ℤ) (fuel i : ℕ)
    (acc : List (String × HVal)) (s para : List ℕ) (tag : String)
    (hpos : 0 ≤ off + i)
    (hs : readBytes data (off + i).toNat 8 = s) (hlen : s.length = 8)
    (hty : 4 < leU16 (s.drop 4))
    (hwc : 0 < leU16 (s.drop 6))
    (hpara : (if (s.take 4).getD 3 1 = 0 then (s.take 4).take 3 else s.take 4) = para)
    (hnotend : para.take 3 ≠ endBytes)
    (htag : utf8Decode para = some tag) :
    gppGo data off (fuel + 1) i acc =
      gppGo data off fuel (i + 8 + 2 * leU16 (s.drop 6))
        (dictInsert acc tag (.strv "[read error]")) := by
  conv_lhs => rw [gppGo]
  rw [if_neg (by omega)]
  dsimp only
  rw [hs, if_pos hlen, hpara, if_pos ⟨hnotend, hwc⟩,
    decodeVal_unknown _ _ _ hty, htag]

/-- Witness for the amended C6 at the concrete block of the counterexample:
all hypotheses hold for its first record, and processing that record stores
the placeholder and hands the rest of the block to the next iteration. -/
theorem c6_witness :
    (0 : ℤ) ≤ 0 + (0 : ℕ) ∧
      readBytes [65, 66, 67, 0, 7, 0, 2, 0, 1, 2, 3, 4, 69, 78, 68, 0, 0, 0, 0, 0] (0 : ℤ).toNat 8 =
        [65, 66, 67, 0, 7, 0, 2, 0] ∧
      4 < leU16 ([65, 66, 67, 0, 7, 0, 2, 0].drop 4) ∧
      0 < leU16 ([65, 66, 67, 0, 7, 0, 2, 0].drop 6) ∧
      utf8Decode [65, 66, 67] = some "ABC" ∧
      gppGo [65, 66, 67, 0, 7, 0, 2, 0, 1, 2, 3, 4, 69, 78, 68, 0, 0, 0, 0, 0] 0 2 0 [] =
        gppGo [65, 66, 67, 0, 7, 0, 2, 0, 1, 2, 3, 4, 69, 78, 68, 0, 0, 0, 0, 0] 0 1 12
          [("ABC", .strv "[read error]")] := by
  refine ⟨by norm_num, by decide, by decide, by decide, by decide, ?_⟩
  have h := c6_unknown_type_stores_placeholder
    [65, 66, 67, 0, 7, 0, 2, 0, 1, 2, 3, 4, 69, 78, 68, 0, 0, 0, 0, 0] 0 1 0 []
    [65, 66, 67, 0, 7, 0, 2, 0] [65, 66, 67] "ABC"
    (by norm_num) (by decide) (by decide) (by decide) (by decide) (by decide)
    (by decide) (by decide)
  simpa using h

/-! ## Claim C7: which directory entries reach the header -/

/-- After a dict insertion the inserted key is present. -/
theorem mem_keys_dictInsert_self {β : Type _} (m : List (String × β)) (k : String) (v : β) :
    k ∈ (dictInsert m k v).map Prod.fst := by
  unfold dictInsert
  split
  case isTrue h =>
    rcases List.any_eq_true.mp h with ⟨p, hp, hpk⟩
    simp only [decide_eq_true_eq] at hpk
    refine List.mem_map.mpr ⟨(k, v), List.mem_map.mpr ⟨p, hp, ?_⟩, rfl⟩
    rw [if_pos hpk]
  case isFalse h =>
    simp

/-- Dict insertion preserves all existing keys. -/
theorem mem_keys_dictInsert_mono {β : Type _} (m : List (String × β)) (k : String) (v : β)
    (k' : String) (h : k' ∈ m.map Prod.fst) : k' ∈ (dictInsert m k v).map Prod.fst := by
  unfold dictInsert
  split
  case isTrue hany =>
    rcases List.mem_map.mp h with ⟨p, hp, rfl⟩
    refine List.mem_map.mpr ⟨if p.1 = k then (k, v) else p, List.mem_map.mpr ⟨p, hp, rfl⟩, ?_⟩
    split
    case isTrue hpk => rw [← hpk]
    case isFalse => rfl
  case isFalse hany =>
    simp only [List.map_append, List.mem_append]
    exact Or.inl h

/-- One header-loop step preserves all keys already collected. -/
theorem hdrStep_keys_mono (data : List ℕ) (h : Hdr) (p : String × BlockInfo) (k : String)
    (hk : k ∈ h.map Prod.fst) : k ∈ (hdrStep data h p).map Prod.fst := by
  unfold hdrStep
  split
  · split
    · exact hk
    · split
      · exact mem_keys_dictInsert_mono _ _ _ _ hk
      · exact hk
  · exact hk

/-- Keys survive the whole header fold. -/
theorem foldl_hdrStep_mono (data : List ℕ) :
    ∀ (fs : Dir) (h : Hdr) (k : String), k ∈ h.map Prod.fst →
      k ∈ (fs.foldl (hdrStep data) h).map Prod.fst := by
  intro fs
  induction fs with
  | nil => intro h k hk; simpa using hk
  | cons p t ih =>
    intro h k hk
    simp only [List.foldl_cons]
    exact ih _ _ (hdrStep_keys_mono data h p k hk)

/-- Counterexample to claim C7 as stated: a directory entry with an unknown
primary type code (its synthetic name contains `unknown`), not a data block
and of nonzero length, is skipped by `read_header`: the resulting header has
no key at all, so the entry does not appear as a header key. -/
theorem c7_counterexample :
    ("[unknown block 99] len  12").take 10 ≠ "Data Block" ∧
      (0 : ℤ) < 12 ∧
      buildHeaderFromFs [] [("[unknown block 99] len  12", ⟨"99", "0", 12, 0⟩)] = [] := by
  refine ⟨by decide, by decide, ?_⟩
  rfl

/-- Claim C7, amended.  Building the header decodes (exactly once, in the
fold) every directory entry whose name does not start with `Data Block`,
whose length is positive, whose name contains neither `unknown` nor
`something` — so entries with unknown or unidentified primary type codes are
excluded, contrary to the original claim — and whose parameter decode does not
raise; every such entry appears as a key of the resulting header mapping. -/
theorem c7_header_keys (data : List ℕ) (name : String) (info : BlockInfo)
    (hnd : name.take 10 ≠ "Data Block") (hlen : 0 < info.length)
    (hu : strContains name "unknown" = false) (hsome : strContains name "something" = false)
    (hdecode : isError (getparamsfromblock data info.offset info.length) = false) :
    ∀ (fs : Dir), (name, info) ∈ fs →
      name ∈ (buildHeaderFromFs data fs).map Prod.fst := by
  have hstep : ∀ h : Hdr, ∃ ps, hdrStep data h (name, info) = dictInsert h name ps := by
    intro h
    obtain ⟨ps, hps⟩ : ∃ ps, getparamsfromblock data info.offset info.length = .ok ps := by
      cases heq : getparamsfromblock data info.offset info.length with
      | ok ps => exact ⟨ps, rfl⟩
      | error e =>
        rw [heq] at hdecode
        cases hdecode
    refine ⟨ps, ?_⟩
    unfold hdrStep
    rw [if_pos ⟨hnd, hlen⟩, if_neg (by simp [hu, hsome]), hps]
  suffices haux : ∀ (fs : Dir) (acc : Hdr), (name, info) ∈ fs →
      name ∈ (fs.foldl (hdrStep data) acc).map Prod.fst by
    intro fs hmem
    exact haux fs [] hmem
  intro fs
  induction fs with
  | nil => intro acc hmem; cases hmem
  | cons p t ih =>
    intro acc hmem
    rcases List.mem_cons.mp hmem with hhd | htl
    · subst hhd
      obtain ⟨ps, hps⟩ := hstep acc
      simp only [List.foldl_cons, hps]
      exact foldl_hdrStep_mono data t _ name (mem_keys_dictInsert_self acc name ps)
    · simp only [List.foldl_cons]
      exact ih _ htl

/-- Witness for the amended C7: a well-named one-entry directory whose block
bytes are just an `END` record decodes and appears in the header keys. -/
theorem c7_witness :
    ("Instrument Parameters").take 10 ≠ "Data Block" ∧
      (0 : ℤ) < 8 ∧
      strContains "Instrument Parameters" "unknown" = false ∧
      strContains "Instrument Parameters" "something" = false ∧
      isError (getparamsfromblock [69, 78, 68, 0, 0, 0, 0, 0] 0 8) = false ∧
      "Instrument Parameters" ∈
        (buildHeaderFromFs [69, 78, 68, 0, 0, 0, 0, 0]
          [("Instrument Parameters", ⟨"32", "0", 8, 0⟩)]).map Prod.fst := by
  refine ⟨by decide, by decide, by decide, by decide, by decide, ?_⟩
  exact c7_header_keys [69, 78, 68, 0, 0, 0, 0, 0] "Instrument Parameters" ⟨"32", "0", 8, 0⟩
    (by decide) (by decide) (by decide) (by decide) (by decide)
    [("Instrument Parameters", ⟨"32", "0", 8, 0⟩)] (by simp)

/-! ## Claim C9: the three result shapes of the header-parameter search -/

/-- The collection fold is the empty-accumulator fold prefixed by the
accumulator. -/
theorem searchPars_acc (par : String) :
    ∀ (t : Hdr) (acc : List String),
      t.foldl (fun (acc : List String) (bi : String × List (String × HVal)) =>
          acc ++ (bi.2.filter (fun pj => pj.1 = par)).map (fun _ => bi.1)) acc =
        acc ++ searchPars t par := by
  intro t
  induction t with
  | nil => intro acc; simp [searchPars]
  | cons b t ih =>
    intro acc
    simp only [List.foldl_cons, searchPars, List.nil_append]
    rw [ih, ih ((b.2.filter (fun pj => pj.1 = par)).map (fun _ => b.1)), List.append_assoc]

/-- With distinct tags inside a block, the per-block contribution of the
collection loop is the block name once, or nothing. -/
theorem filter_map_const_of_nodup (ps : List (String × HVal)) (par : String) (c : String)
    (h : (ps.map Prod.fst).Nodup) :
    (ps.filter (fun pj => pj.1 = par)).map (fun _ => c) =
      if ps.any (fun pj => pj.1 = par) then [c] else [] := by
  induction ps with
  | nil => simp
  | cons q t ih =>
    rw [List.map_cons, List.nodup_cons] at h
    by_cases hq : q.1 = par
    · have ht : t.filter (fun pj => pj.1 = par) = [] := by
        rw [List.filter_eq_nil_iff]
        intro pj hpj
        simp only [decide_eq_true_eq]
        intro hpar
        exact h.1 (List.mem_map.mpr ⟨pj, hpj, by rw [hpar, hq]⟩)
      simp [List.filter_cons, hq, ht]
    · rw [List.filter_cons, if_neg (by simp [hq]), ih h.2, List.any_cons,
        show decide (q.1 = par) = false from by simp [hq], Bool.false_or]

/-- The block names collected by `search_header_par` are exactly the names of
the blocks containing the tag, in order, provided each block dictionary has
distinct tags. -/
theorem searchPars_eq (header : Hdr) (par : String)
    (hnd : ∀ b ∈ header, (b.2.map Prod.fst).Nodup) :
    searchPars header par =
      (header.filter (fun b => b.2.any (fun pj => pj.1 = par))).map Prod.fst := by
  induction header with
  | nil => rfl
  | cons b t ih =>
    have hb := hnd b (List.mem_cons_self b t)
    have ht : ∀ x ∈ t, (x.2.map Prod.fst).Nodup := fun x hx => hnd x (List.mem_cons_of_mem b hx)
    simp only [searchPars, List.foldl_cons, List.nil_append]
    rw [searchPars_acc, ih ht, filter_map_const_of_nodup b.2 par b.1 hb, List.filter_cons]
    by_cases hany : b.2.any (fun pj => pj.1 = par)
    · simp [hany]
    · simp [hany]

/-- Claim C9 (confirmed).  `search_header_par` returns three differently
shaped results by multiplicity of the tag among the header blocks (each block
mapping having distinct tags): exactly one containing block gives that block
name as a string; several give the list of all containing block names; none
gives Python `None`, and the dependent `get_header_par` lookup then returns
`None` instead of raising. -/
theorem c9_search_result_shapes (header : Hdr) (par : String)
    (hnd : ∀ b ∈ header, (b.2.map Prod.fst).Nodup) :
    (((header.filter (fun b => b.2.any (fun pj => pj.1 = par))).map Prod.fst).length = 1 →
      search_header_par header par =
        .one (((header.filter (fun b => b.2.any (fun pj => pj.1 = par))).map Prod.fst).getD 0 "")) ∧
    (1 < ((header.filter (fun b => b.2.any (fun pj => pj.1 = par))).map Prod.fst).length →
      search_header_par header par =
        .many ((header.filter (fun b => b.2.any (fun pj => pj.1 = par))).map Prod.fst)) ∧
    (((header.filter (fun b => b.2.any (fun pj => pj.1 = par))).map Prod.fst).length = 0 →
      search_header_par header par = .noneFound ∧ get_header_par header par = none) := by
  have hp := searchPars_eq header par hnd
  refine ⟨?_, ?_, ?_⟩
  · intro h1
    unfold search_header_par
    rw [hp, if_pos h1]
  · intro h1
    unfold search_header_par
    rw [hp, if_neg (by omega), if_pos h1]
  · intro h0
    have hs : search_header_par header par = .noneFound := by
      unfold search_header_par
      rw [hp, if_neg (by omega), if_neg (by omega)]
    refine ⟨hs, ?_⟩
    unfold get_header_par
    rw [hs]

/-- Witness for C9 on a concrete two-block header, exercising all three
shapes: tag `Y` lives in one block, `X` in two, `Z` in none. -/
theorem c9_witness :
    (∀ b ∈ ([("A", [("X", HVal.intv 1), ("Y", HVal.intv 2)]),
        ("B", [("X", HVal.intv 3)])] : Hdr), (b.2.map Prod.fst).Nodup) ∧
      search_header_par [("A", [("X", HVal.intv 1), ("Y", HVal.intv 2)]),
        ("B", [("X", HVal.intv 3)])] "Y" = .one "A" ∧
      search_header_par [("A", [("X", HVal.intv 1), ("Y", HVal.intv 2)]),
        ("B", [("X", HVal.intv 3)])] "X" = .many ["A", "B"] ∧
      search_header_par [("A", [("X", HVal.intv 1), ("Y", HVal.intv 2)]),
        ("B", [("X", HVal.intv 3)])] "Z" = .noneFound ∧
      get_header_par [("A", [("X", HVal.intv 1), ("Y", HVal.intv 2)]),
        ("B", [("X", HVal.intv 3)])] "Z" = none := by
  have hnd : ∀ b ∈ ([("A", [("X", HVal.intv 1), ("Y", HVal.intv 2)]),
      ("B", [("X", HVal.intv 3)])] : Hdr), (b.2.map Prod.fst).Nodup := by decide
  refine ⟨hnd, ?_, ?_, ?_, ?_⟩
  · have h := (c9_search_result_shapes _ "Y" hnd).1 (by decide)
    rw [h]
    decide
  · have h := (c9_search_result_shapes _ "X" hnd).2.1 (by decide)
    rw [h]
    decide
  · exact ((c9_search_result_shapes _ "Z" hnd).2.2 (by decide)).1
  · exact ((c9_search_result_shapes _ "Z" hnd).2.2 (by decide)).2

end Ifs125
